import Mathlib

/-!
Shallow embedding of the uniws-rs core (src/config.rs, src/error.rs,
src/signature.rs, src/patch_info.rs) and proofs about the claims of the
specification.

Modelling conventions:
- Rust `&str` / `String` values are Lean `String`; parsing works on `String.data`
  (a `List Char`), ignoring UTF-8 byte-level subtleties (all relevant inputs are ASCII).
- Rust byte buffers (`&mut [u8]`, `Vec<u8>`) are `List Nat` whose entries are byte
  values; machine integers are `Nat` with explicit bounds / `% 256` where overflow
  or truncation matters.
- `HashMap<String, V>` is an association list `List (String × V)` with
  replace-or-append insertion (`insertKV`) and first-match lookup (`lookupKV`);
  only lookup is observable for a map, so this is a faithful model (iteration
  order of a Rust HashMap is arbitrary; theorems about iteration-order-sensitive
  code quantify over the list).
- A Rust panic (out-of-bounds slice index, assertion failure, u8 overflow in debug
  mode) is modelled as `none` for `Option`-valued functions and as
  `Outcome.panics` for functions that otherwise return `Result`.
- `winnow` parsers are `List Char → Option (result × List Char)`; the grammar here
  uses only backtracking errors, so a plain `Option` parser model is faithful.
- The Rust `Error` enum is modelled with the `ConfigError` variants the core
  constructs; the I/O and winnow variants are never produced by the embedded code
  and are omitted.
-/

/-! ### Association-list model of HashMap -/

abbrev Items := List (String × String)

def lookupKV {α : Type} (m : List (String × α)) (k : String) : Option α :=
  match m.find? (fun p => p.1 == k) with
  | some p => some p.2
  | none => none

def insertKV {α : Type} (m : List (String × α)) (k : String) (v : α) : List (String × α) :=
  if m.any (fun p => p.1 == k) then
    m.map (fun p => if p.1 == k then (k, v) else p)
  else m ++ [(k, v)]

/-! ### Rust unsigned-integer FromStr model (u8 / u16 / u32 / u64) -/

def U8B : Nat := 256
def U16B : Nat := 65536
def U32B : Nat := 4294967296
def U64B : Nat := 18446744073709551616

def digitVal (c : Char) : Option Nat :=
  if '0' ≤ c ∧ c ≤ '9' then some (c.toNat - '0'.toNat) else none

def parseUIntGo (bound : Nat) : Nat → List Char → Except String Nat
  | acc, [] => .ok acc
  | acc, c :: rest =>
    match digitVal c with
    | none => .error "invalid digit found in string"
    | some d =>
      if bound ≤ acc * 10 + d then .error "number too large to fit in target type"
      else parseUIntGo bound (acc * 10 + d) rest

def parseUInt (bound : Nat) (s : List Char) : Except String Nat :=
  match s with
  | [] => .error "cannot parse integer from empty string"
  | c :: rest =>
    if c = '+' then
      match rest with
      | [] => .error "cannot parse integer from empty string"
      | _ => parseUIntGo bound 0 rest
    else parseUIntGo bound 0 (c :: rest)

def hexDigitVal (c : Char) : Option Nat :=
  if '0' ≤ c ∧ c ≤ '9' then some (c.toNat - '0'.toNat)
  else if 'a' ≤ c ∧ c ≤ 'f' then some (c.toNat - 'a'.toNat + 10)
  else if 'A' ≤ c ∧ c ≤ 'F' then some (c.toNat - 'A'.toNat + 10)
  else none

/-- Model of `u8::from_str_radix(byte_pair, 16)` on a 2-character slice
(the sign prefix `+` is accepted by Rust's from_str_radix). -/
def hexBytePair (a b : Char) : Option Nat :=
  if a = '+' then hexDigitVal b
  else
    match hexDigitVal a, hexDigitVal b with
    | some x, some y => some (x * 16 + y)
    | _, _ => none

deriving instance DecidableEq for Except

/-! ### src/error.rs -/

inductive ConfigError where
  | MissingRequiredField (sect : String) (field : String)
  | FieldParseError (sect : String) (field : String) (msg : String)
  | Other (msg : String)
deriving DecidableEq

inductive Error where
  | ConfigError (e : ConfigError)
deriving DecidableEq

def Error.config_missing_field (sect : String) (field : String) : Error :=
  Error.ConfigError (ConfigError.MissingRequiredField sect field)

def Error.config_field_parse (sect : String) (field : String) (msg : String) : Error :=
  Error.ConfigError (ConfigError.FieldParseError sect field msg)

def Error.config_error (msg : String) : Error :=
  Error.ConfigError (ConfigError.Other msg)

/-- Outcome of a Rust call that may panic in addition to returning `Result`. -/
inductive Outcome (α : Type) where
  | panics : Outcome α
  | fails : Error → Outcome α
  | succeeds : α → Outcome α
deriving DecidableEq

/-! ### src/signature.rs -/

inductive MatchType where
  | Exact
  | Wild
deriving DecidableEq

structure Signature where
  pattern : List (Option Nat)
deriving DecidableEq

/-- Model of the hex decoding loop `read_sig` (identical in src/config.rs and
src/signature.rs): consecutive 2-character slices parsed base 16, an odd trailing
character is an "Invalid hex string length" error. -/
def read_sig (sect : String) : List Char → Except Error (List Nat)
  | [] => .ok []
  | [_] => .error (Error.config_field_parse sect "sig" "Invalid hex string length")
  | a :: b :: rest =>
    match hexBytePair a b with
    | none =>
      .error (Error.config_field_parse sect "sig" ("Invalid hex byte pair: " ++ String.mk [a, b]))
    | some v => (read_sig sect rest).map (fun xs => v :: xs)

/-- Model of `read_sigwild` in src/signature.rs (FieldParseError on a bad character). -/
def read_sigwild (sect : String) : List Char → Except Error (List MatchType)
  | [] => .ok []
  | c :: rest =>
    if c = '0' then (read_sigwild sect rest).map (fun xs => MatchType.Exact :: xs)
    else if c = '1' then (read_sigwild sect rest).map (fun xs => MatchType.Wild :: xs)
    else .error (Error.config_field_parse sect "sigwild" ("Invalid sigwild character: " ++ String.mk [c]))

/-- Model of `Signature::new`: the `assert_eq!(signature.len(), sigwild.len())`
panics on a length mismatch, modelled by `none`. -/
def Signature.mkChecked (signature : List Nat) (sigwild : List MatchType) : Option Signature :=
  if signature.length = sigwild.length then
    some ⟨(signature.zip sigwild).map (fun p =>
      match p.2 with
      | MatchType.Wild => none
      | MatchType.Exact => some p.1)⟩
  else none

/-- Model of `Signature::from_string`. -/
def Signature.fromString (sect : String) (signature : String) (sigwild : String) :
    Outcome Signature :=
  match read_sig sect signature.data with
  | .error e => .fails e
  | .ok sig =>
    match read_sigwild sect sigwild.data with
    | .error e => .fails e
    | .ok w =>
      match Signature.mkChecked sig w with
      | some s => .succeeds s
      | none => .panics

def slotOk (slot : Option Nat) (b : Nat) : Bool :=
  match slot with
  | none => true
  | some v => v == b

/-- Model of `Signature::search_at`. -/
def Signature.searchAt (s : Signature) (haystack : List Nat) (index : Nat) : Option Nat :=
  if s.pattern.length > (haystack.drop index).length then none
  else if (List.range s.pattern.length).all
      (fun i => slotOk (s.pattern.getD i none) (haystack.getD (i + index) 0)) then
    some index
  else none

/-- Model of the loop body of `Signature::try_find`: the Rust `for i in 0..haystack.len()`
is rendered with `fuel` counting the remaining iterations (`fuel + i = haystack.len()`). -/
def Signature.tryFindGo (s : Signature) (haystack : List Nat) : Nat → Nat → Option Nat
  | 0, _ => none
  | fuel + 1, i =>
    if haystack.length - i < s.pattern.length then none
    else
      match s.searchAt haystack i with
      | some index => some index
      | none => s.tryFindGo haystack fuel (i + 1)

/-- Model of `Signature::try_find`. -/
def Signature.tryFind (s : Signature) (haystack : List Nat) : Option Nat :=
  s.tryFindGo haystack haystack.length 0

/-! ### Field access helper shared by both `PatchInfo::from_items` implementations -/

def fieldKey (index : Option Nat) (name : String) : String :=
  match index with
  | some p => "p" ++ toString p ++ name
  | none => name

def fieldGet (sect : String) (items : Items) (index : Option Nat) (name : String) :
    Except Error String :=
  match lookupKV items (fieldKey index name) with
  | some v => .ok v
  | none => .error (Error.config_missing_field sect name)

def fieldParseNum (bound : Nat) (sect : String) (items : Items) (index : Option Nat)
    (name : String) : Except Error Nat :=
  match fieldGet sect items index name with
  | .error e => .error e
  | .ok v =>
    match parseUInt bound v.data with
    | .ok n => .ok n
    | .error msg => .error (Error.config_field_parse sect name msg)

/-! ### src/patch_info.rs -/

structure PatchInfo where
  modfile : String
  undofile : Option String
  signature : Signature
  xoffset : Option Nat
  yoffset : Option Nat
  occur : Nat
  setx : Option Nat
  sety : Option Nat
deriving DecidableEq

/-- Model of `patch_info::PatchInfo::from_items`. -/
def PatchInfo.from_items (sect : String) (items : Items) (index : Option Nat) :
    Outcome PatchInfo :=
  match fieldGet sect items index "sig" with
  | .error e => .fails e
  | .ok sigStr =>
    match fieldGet sect items index "sigwild" with
    | .error e => .fails e
    | .ok wStr =>
      match Signature.fromString sect sigStr wStr with
      | .panics => .panics
      | .fails e => .fails e
      | .succeeds signature =>
        match fieldGet sect items index "modfile" with
        | .error e => .fails e
        | .ok modfile =>
          match fieldParseNum U32B sect items index "occur" with
          | .error e => .fails e
          | .ok occur =>
            .succeeds ⟨modfile, (fieldGet sect items index "undofile").toOption, signature,
              (fieldParseNum U64B sect items index "xoffset").toOption,
              (fieldParseNum U64B sect items index "yoffset").toOption, occur,
              (fieldParseNum U16B sect items index "setx").toOption,
              (fieldParseNum U16B sect items index "sety").toOption⟩

/-- Model of a single byte store `data[i] = v`; an out-of-bounds index panics (`none`). -/
def writeByte (data : List Nat) (i v : Nat) : Option (List Nat) :=
  if i < data.length then some (data.set i v) else none

/-- Model of the two-byte little-endian store (`to_le_bytes` then two indexed stores). -/
def writeLE16 (data : List Nat) (i v : Nat) : Option (List Nat) :=
  match writeByte data i (v % 256) with
  | none => none
  | some d => writeByte d (i + 1) (v / 256 % 256)

/-- Model of the write section of one `apply_patch` iteration: `xoffset` write then
`yoffset` write, both relative to the match offset inside the current slice. -/
def doWrites (xoff yoff : Option Nat) (x y index : Nat) (data : List Nat) :
    Option (List Nat) :=
  let afterX :=
    match xoff with
    | some xo => writeLE16 data (index + xo) x
    | none => some data
  match afterX with
  | none => none
  | some d =>
    match yoff with
    | some yo => writeLE16 d (index + yo) y
    | none => some d

/-- Model of the `for _ in 0..self.occur` loop of `apply_patch`. Each iteration
searches the current slice, performs the writes in it, and re-slices past the
match (`data = &mut data[index + pattern.len()..]`), rendered by recursing on the
dropped suffix and re-attaching the untouched front. -/
def PatchInfo.applyLoop (p : PatchInfo) (x y : Nat) : Nat → List Nat → Option (List Nat × Bool)
  | 0, data => some (data, true)
  | n + 1, data =>
    match p.signature.tryFind data with
    | none => some (data, false)
    | some index =>
      match doWrites p.xoffset p.yoffset x y index data with
      | none => none
      | some data2 =>
        match p.applyLoop x y n (data2.drop (index + p.signature.pattern.length)) with
        | none => none
        | some (d, b) => some (data2.take (index + p.signature.pattern.length) ++ d, b)

/-- Model of `PatchInfo::apply_patch`. `some (buffer, flag)` is a normal return of
`flag` with the final buffer contents; `none` is a panic. -/
def PatchInfo.apply_patch (p : PatchInfo) (data : List Nat) (x y : Nat) :
    Option (List Nat × Bool) :=
  p.applyLoop x y p.occur data

/-! ### src/config.rs -/

namespace config

abbrev RawConfig := List (String × Items)

/-! #### the winnow parsers -/

def pChar (c : Char) : List Char → Option (Unit × List Char)
  | [] => none
  | x :: xs => if x = c then some ((), xs) else none

def splitUntil (c : Char) : List Char → Option (List Char × List Char)
  | [] => none
  | x :: xs =>
    if x = c then some ([], x :: xs)
    else
      match splitUntil c xs with
      | none => none
      | some (a, b) => some (x :: a, b)

/-- Model of `take_until(lo.., c)`: input up to (not including) the next `c`;
fails when `c` never occurs or fewer than `lo` characters precede it. -/
def takeUntil (lo : Nat) (c : Char) (input : List Char) : Option (List Char × List Char) :=
  match splitUntil c input with
  | none => none
  | some (a, b) => if lo ≤ a.length then some (a, b) else none

def lineEnding : List Char → Option (Unit × List Char)
  | [] => none
  | c :: rest =>
    if c = '\n' then some ((), rest)
    else if c = '\r' then
      match rest with
      | [] => none
      | c2 :: rest2 => if c2 = '\n' then some ((), rest2) else none
    else none

/-- Model of `till_line_ending`: everything before the line ending, which is not
consumed; a `'\r'` not followed by `'\n'` is an error. -/
def tillLineEnding : List Char → Option (List Char × List Char)
  | [] => some ([], [])
  | c :: rest =>
    if c = '\n' then some ([], c :: rest)
    else if c = '\r' then
      match rest with
      | '\n' :: _ => some ([], c :: rest)
      | _ => none
    else
      match tillLineEnding rest with
      | none => none
      | some (a, b) => some (c :: a, b)

def isMultispace (c : Char) : Bool :=
  c == ' ' || c == '\t' || c == '\n' || c == '\r'

def multispace1 (input : List Char) : Option (List Char × List Char) :=
  match input.takeWhile isMultispace with
  | [] => none
  | a => some (a, input.dropWhile isMultispace)

def space0 (input : List Char) : List Char :=
  input.dropWhile (fun c => c == ' ' || c == '\t')

def alphanumeric1 (input : List Char) : Option (List Char × List Char) :=
  match input.takeWhile Char.isAlphanum with
  | [] => none
  | a => some (a, input.dropWhile Char.isAlphanum)

/-- Model of the `comment` parser: `;` or `#`, the rest of the line, and the
line ending itself. -/
def comment (input : List Char) : Option (Unit × List Char) :=
  match input with
  | [] => none
  | c :: rest =>
    if c = ';' ∨ c = '#' then
      match tillLineEnding rest with
      | none => none
      | some (_, r2) =>
        match lineEnding r2 with
        | none => none
        | some (_, r3) => some ((), r3)
    else none

def wsStep (input : List Char) : Option (List Char) :=
  match comment input with
  | some (_, rest) => some rest
  | none =>
    match multispace1 input with
    | some (_, rest) => some rest
    | none => none

def wsGo : Nat → List Char → List Char
  | 0, input => input
  | fuel + 1, input =>
    match wsStep input with
    | some rest => wsGo fuel rest
    | none => input

/-- Model of `whitespace_and_comments` (always succeeds, possibly consuming
nothing); the fuel bounds the repetition and is sufficient because every step
consumes at least one character. -/
def whitespace_and_comments (input : List Char) : List Char :=
  wsGo input.length input

def quotedValue (input : List Char) : Option (List Char × List Char) :=
  match pChar '"' input with
  | none => none
  | some (_, r1) =>
    match takeUntil 0 '"' r1 with
    | none => none
    | some (v, r2) =>
      match pChar '"' r2 with
      | none => none
      | some (_, r3) =>
        match lineEnding r3 with
        | none => none
        | some (_, r4) => some (v, r4)

/-- Model of `str::trim_end` restricted to the ASCII whitespace that can occur here. -/
def trimEnd (l : List Char) : List Char :=
  (l.reverse.dropWhile isMultispace).reverse

/-- Model of `kv_pair`: an alphanumeric key, `=` with optional surrounding spaces,
then either a double-quoted value whose closing quote is directly followed by a
line ending, or the right-trimmed rest of the line. -/
def kv_pair (input : List Char) : Option ((String × String) × List Char) :=
  match alphanumeric1 input with
  | none => none
  | some (key, r1) =>
    match pChar '=' (space0 r1) with
    | none => none
    | some (_, r3) =>
      match quotedValue (space0 r3) with
      | some (v, r5) => some ((String.mk key, String.mk v), r5)
      | none =>
        match tillLineEnding (space0 r3) with
        | none => none
        | some (v, r5) => some ((String.mk key, String.mk (trimEnd v)), r5)

def header (input : List Char) : Option (String × List Char) :=
  match pChar '[' input with
  | none => none
  | some (_, r1) =>
    match takeUntil 1 ']' r1 with
    | none => none
    | some (name, r2) =>
      match pChar ']' r2 with
      | none => none
      | some (_, r3) => some (String.mk name, r3)

/-- Accumulation of `repeat(1.., terminated(kv_pair, whitespace_and_comments))`
into a map: the parsed pairs in order, folded with `insertKV` (HashMap collect). -/
def buildItems (pairs : List (String × String)) : Items :=
  pairs.foldl (fun m kv => insertKV m kv.1 kv.2) []

def repeatKVsGo : Nat → List Char → List (String × String) × List Char
  | 0, input => ([], input)
  | fuel + 1, input =>
    match kv_pair input with
    | none => ([], input)
    | some (kv, r1) =>
      match repeatKVsGo fuel (whitespace_and_comments r1) with
      | (rest, r3) => (kv :: rest, r3)

def parse_section (input : List Char) : Option ((String × Items) × List Char) :=
  match header input with
  | none => none
  | some (name, r1) =>
    match repeatKVsGo r1.length (whitespace_and_comments r1) with
    | ([], _) => none
    | (pairs, r3) => some ((name, buildItems pairs), r3)

def repeatSectionsGo : Nat → List Char → List (String × Items) × List Char
  | 0, input => ([], input)
  | fuel + 1, input =>
    match parse_section input with
    | none => ([], input)
    | some (sec, r1) =>
      match repeatSectionsGo fuel r1 with
      | (rest, r2) => (sec :: rest, r2)

/-- Model of `parse`: skip everything before the first `[`, then one or more
sections collected into a map; trailing input is ignored. -/
def parse (input : List Char) : Option RawConfig :=
  match takeUntil 0 '[' input with
  | none => none
  | some (_, r1) =>
    match repeatSectionsGo r1.length r1 with
    | ([], _) => none
    | (secs, _) => some (secs.foldl (fun m kv => insertKV m kv.1 kv.2) [])

/-! #### the config data model -/

structure Apps where
  version : String
  apps : List String
deriving DecidableEq

structure PatchInfo where
  modfile : String
  undofile : Option String
  sig : List Nat
  sigwild : List Bool
  xoffset : Option Nat
  yoffset : Option Nat
  occur : Nat
  setx : Option Nat
  sety : Option Nat
deriving DecidableEq

/-- Model of the sigwild decoding inside `config::PatchInfo::from_items`
(this copy reports a bad character through `Error::config_error`). -/
def read_sigwild_bools : List Char → Except Error (List Bool)
  | [] => .ok []
  | c :: rest =>
    if c = '0' then (read_sigwild_bools rest).map (fun xs => false :: xs)
    else if c = '1' then (read_sigwild_bools rest).map (fun xs => true :: xs)
    else .error (Error.config_error ("Invalid sigwild character: " ++ String.mk [c]))

/-- Model of `config::PatchInfo::from_items`. Field evaluation order follows the
Rust code: `sig`, `sigwild`, then the struct literal (`modfile` is the first
fallible field there and `occur` the only later one; the `.ok()` fields cannot
fail). -/
def PatchInfo.from_items (sect : String) (items : Items) (index : Option Nat) :
    Except Error PatchInfo :=
  match fieldGet sect items index "sig" with
  | .error e => .error e
  | .ok sigStr =>
    match read_sig sect sigStr.data with
    | .error e => .error e
    | .ok sig =>
      match fieldGet sect items index "sigwild" with
      | .error e => .error e
      | .ok wStr =>
        match read_sigwild_bools wStr.data with
        | .error e => .error e
        | .ok sigwild =>
          match fieldGet sect items index "modfile" with
          | .error e => .error e
          | .ok modfile =>
            match fieldParseNum U32B sect items index "occur" with
            | .error e => .error e
            | .ok occur =>
              .ok ⟨modfile, (fieldGet sect items index "undofile").toOption, sig, sigwild,
                (fieldParseNum U64B sect items index "xoffset").toOption,
                (fieldParseNum U64B sect items index "yoffset").toOption, occur,
                (fieldParseNum U16B sect items index "setx").toOption,
                (fieldParseNum U16B sect items index "sety").toOption⟩

/-- Model of `details.replace(r"\013\010", LINE_ENDING)` on the non-Windows
line terminator: every literal `\013\010` becomes `'\n'`. -/
def replaceCRLF : List Char → List Char
  | '\\' :: '0' :: '1' :: '3' :: '\\' :: '0' :: '1' :: '0' :: rest => '\n' :: replaceCRLF rest
  | c :: rest => c :: replaceCRLF rest
  | [] => []

structure AppSection where
  name : String
  details : String
  checkfile : String
  patches : List PatchInfo
deriving DecidableEq

/-- Model of the chain loop in `AppSection::from_items` for indices `1, 2, …`.
The loop index is a `u8` starting at 1; the fuel counts the remaining indices up
to 255, and exhausting it models the debug-mode overflow panic of `idx += 1`. -/
def chainFromGo (name : String) (items : Items) : Nat → Nat → Outcome (List PatchInfo)
  | 0, _ => .panics
  | fuel + 1, idx =>
    match PatchInfo.from_items name items (some idx) with
    | .error (Error.ConfigError (ConfigError.MissingRequiredField _ _)) => .succeeds []
    | .error e => .fails e
    | .ok next =>
      match chainFromGo name items fuel (idx + 1) with
      | .panics => .panics
      | .fails e => .fails e
      | .succeeds rest => .succeeds (next :: rest)

def chainFrom (name : String) (items : Items) : Outcome (List PatchInfo) :=
  chainFromGo name items 255 1

/-- Model of `AppSection::from_items`. -/
def AppSection.from_items (name : String) (items : Items) : Outcome AppSection :=
  match lookupKV items "details" with
  | none => .fails (Error.config_missing_field name "details")
  | some d =>
    match lookupKV items "checkfile" with
    | none => .fails (Error.config_missing_field name "checkfile")
    | some checkfile =>
      match PatchInfo.from_items name items none with
      | .error e => .fails e
      | .ok first =>
        match chainFrom name items with
        | .panics => .panics
        | .fails e => .fails e
        | .succeeds rest =>
          .succeeds ⟨name, String.mk (replaceCRLF d.data), checkfile, first :: rest⟩

/-- Model of the key filter inside `Config::get_apps`: `split_at_checked(1)`,
parse the tail as a `u8`, and keep the entry when the head is `"a"`. -/
def appKey (k : String) : Option Nat :=
  match k.data with
  | [] => none
  | c :: rest =>
    match (parseUInt U8B rest).toOption with
    | none => none
    | some n => if c = 'a' then some n else none

def collectApps (sec : Items) : List (Nat × String) :=
  sec.filterMap (fun kv =>
    match appKey kv.1 with
    | some n => some (n, kv.2)
    | none => none)

/-- Model of `Config::get_apps`. Rust's `sort_by_key` is a stable ascending sort,
rendered with the stable `List.insertionSort`. -/
def get_apps (raw : RawConfig) : Except Error Apps :=
  match lookupKV raw "Apps" with
  | none => .error (Error.config_error "Missing 'Apps' Section")
  | some sec =>
    match lookupKV sec "version" with
    | none => .error (Error.config_error "Missing 'Apps.version'")
    | some version =>
      .ok ⟨version,
        (List.insertionSort (fun a b => a.1 ≤ b.1) (collectApps sec)).map Prod.snd⟩

end config

/-! ### Helper lemmas about the patch executor -/

lemma writeByte_some {data : List Nat} {i v : Nat} {d : List Nat}
    (h : writeByte data i v = some d) : i < data.length ∧ d.length = data.length := by
  unfold writeByte at h
  split at h
  · cases h
    exact ⟨by assumption, by simp⟩
  · cases h

lemma writeLE16_length {data : List Nat} {i v : Nat} {d : List Nat}
    (h : writeLE16 data i v = some d) : d.length = data.length := by
  unfold writeLE16 at h
  split at h
  · cases h
  · rename_i d1 h1
    have e1 := (writeByte_some h1).2
    have e2 := (writeByte_some h).2
    omega

lemma doWrites_length {xo yo : Option Nat} {x y idx : Nat} {data d : List Nat}
    (h : doWrites xo yo x y idx data = some d) : d.length = data.length := by
  unfold doWrites at h
  simp only at h
  split at h
  · cases h
  · rename_i d1 h1
    have e1 : d1.length = data.length := by
      split at h1
      · exact writeLE16_length h1
      · cases h1; rfl
    split at h
    · have := writeLE16_length h
      omega
    · cases h
      omega

lemma applyLoop_length {p : PatchInfo} {x y : Nat} :
    ∀ {n : Nat} {data d : List Nat} {b : Bool},
      p.applyLoop x y n data = some (d, b) → d.length = data.length := by
  intro n
  induction n with
  | zero =>
    intro data d b h
    simp only [PatchInfo.applyLoop] at h
    cases h
    rfl
  | succ n ih =>
    intro data d b h
    simp only [PatchInfo.applyLoop] at h
    split at h
    · cases h
      rfl
    · rename_i index htf
      split at h
      · cases h
      · rename_i data2 hw
        split at h
        · cases h
        · rename_i d' b' hr
          cases h
          have hl := ih hr
          have h2 := doWrites_length hw
          simp only [List.length_append, List.length_take, List.length_drop] at *
          omega

/-- C1 (corrected). With the pattern matching at offset 0 and `xoffset = 5`, the
computed write position 5 is outside the 1-byte buffer; `apply_patch` does not
return a `BufferBoundsError` result (no such variant exists in the code), it
panics on the out-of-bounds slice store, modelled by `none`. -/
theorem c1_counterexample :
    Signature.tryFind ⟨[some 128]⟩ [128] = some 0 ∧
    ([128] : List Nat).length ≤ 0 + 5 ∧
    PatchInfo.apply_patch ⟨"", none, ⟨[some 128]⟩, some 5, none, 1, none, none⟩
      [128] 1920 1080 = none := by
  decide

/-- C1 (amended). A write whose computed position is outside the buffer makes the
byte store (and hence `apply_patch`) panic rather than return; whenever
`apply_patch` returns normally, every store was in bounds and the buffer keeps
its length — nothing is clamped, truncated or written out of bounds. -/
theorem c1_amended :
    (∀ (data : List Nat) (i v : Nat) (d : List Nat),
        writeByte data i v = some d → i < data.length ∧ d.length = data.length) ∧
    (∀ (p : PatchInfo) (data : List Nat) (x y : Nat) (d : List Nat) (b : Bool),
        p.apply_patch data x y = some (d, b) → d.length = data.length) := by
  constructor
  · intro data i v d h
    exact writeByte_some h
  · intro p data x y d b h
    exact applyLoop_length h

/-- C1 witness: the amended theorem applied at concrete inputs. -/
theorem c1_witness :
    (0 < ([5, 6] : List Nat).length ∧ ([7, 6] : List Nat).length = ([5, 6] : List Nat).length) ∧
    ([128, 7] : List Nat).length = ([128, 0] : List Nat).length := by
  refine ⟨c1_amended.1 [5, 6] 0 7 [7, 6] (by decide), ?_⟩
  exact c1_amended.2 ⟨"", none, ⟨[some 128]⟩, some 0, none, 1, none, none⟩
    [128, 0] 1920 1080 [128, 7] true (by decide)

/-! ### C2: failure after partial application keeps the already-applied patches -/

lemma applyLoop_false_partial {p : PatchInfo} {x y : Nat} :
    ∀ {n : Nat} {data d : List Nat},
      p.applyLoop x y n data = some (d, false) →
      ∃ m, m < n ∧ p.applyLoop x y m data = some (d, true) := by
  intro n
  induction n with
  | zero =>
    intro data d h
    simp only [PatchInfo.applyLoop] at h
    cases h
  | succ n ih =>
    intro data d h
    rw [PatchInfo.applyLoop] at h
    split at h
    · cases h
      exact ⟨0, by omega, rfl⟩
    · rename_i index htf
      split at h
      · cases h
      · rename_i data2 hw
        split at h
        · cases h
        · rename_i d' b' hr
          cases h
          obtain ⟨m, hm, hml⟩ := ih hr
          refine ⟨m + 1, by omega, ?_⟩
          rw [PatchInfo.applyLoop, htf]
          simp only [hw, hml]

/-- C2 (confirmed). When `apply_patch` returns `false` (a normal, non-panicking
return), the final buffer is exactly the buffer obtained by successfully applying
some smaller number `m < occur` of occurrences — the occurrences patched before
the failure remain patched, nothing is rolled back. The closed conjunct is the
`occur = 2`, one-occurrence scenario: the call returns `false` with precisely the
first occurrence patched. -/
theorem c2_thm :
    (∀ (p : PatchInfo) (data : List Nat) (x y : Nat) (d : List Nat),
        p.apply_patch data x y = some (d, false) →
        ∃ m, m < p.occur ∧ p.applyLoop x y m data = some (d, true)) ∧
    PatchInfo.apply_patch ⟨"", none, ⟨[some 128, some 2]⟩, some 0, none, 2, none, none⟩
      [0, 128, 2, 9] 1920 1080 = some ([0, 128, 7, 9], false) := by
  constructor
  · intro p data x y d h
    exact applyLoop_false_partial h
  · decide

/-- C2 witness: the universally quantified conjunct applied to the `occur = 2`
scenario with a single occurrence. -/
theorem c2_witness :
    ∃ m, m < (⟨"", none, ⟨[some 128, some 2]⟩, some 0, none, 2, none, none⟩ : PatchInfo).occur ∧
      PatchInfo.applyLoop ⟨"", none, ⟨[some 128, some 2]⟩, some 0, none, 2, none, none⟩
        1920 1080 m [0, 128, 2, 9] = some ([0, 128, 7, 9], true) :=
  c2_thm.1 ⟨"", none, ⟨[some 128, some 2]⟩, some 0, none, 2, none, none⟩
    [0, 128, 2, 9] 1920 1080 [0, 128, 7, 9] (by decide)

/-! ### C3: what terminates the descriptor chain at index at least 1 -/

/-- C3 (corrected). With `p1sig` present but `p1sigwild` absent, the AppSection
build does not fail: the missing-field error from index 1 terminates the chain
normally and the build succeeds with a single descriptor (the claim predicted a
fatal missing-field error). -/
theorem c3_counterexample :
    config.AppSection.from_items "X"
      [("details", "d"), ("checkfile", "c"), ("sig", "80"), ("sigwild", "0"),
       ("modfile", "m"), ("occur", "1"), ("p1sig", "80")] =
    Outcome.succeeds
      ⟨"X", "d", "c", [⟨"m", none, [128], [false], none, none, 1, none, none⟩]⟩ := by
  decide

/-- C3 (amended). At a chain index `i ≥ 1`, a `MissingRequiredField` error from
`PatchInfo::from_items` — whichever of the required keys (`sig`, `sigwild`,
`modfile`, `occur`) is the first one found absent — terminates the chain normally
with the descriptors built so far, while a `FieldParseError` is fatal and aborts
the build with that error. -/
theorem c3_amended :
    (∀ (name : String) (items : Items) (fuel idx : Nat) (s f : String),
        config.PatchInfo.from_items name items (some idx) =
          Except.error (Error.ConfigError (ConfigError.MissingRequiredField s f)) →
        config.chainFromGo name items (fuel + 1) idx = Outcome.succeeds []) ∧
    (∀ (name : String) (items : Items) (fuel idx : Nat) (s f m : String),
        config.PatchInfo.from_items name items (some idx) =
          Except.error (Error.ConfigError (ConfigError.FieldParseError s f m)) →
        config.chainFromGo name items (fuel + 1) idx =
          Outcome.fails (Error.ConfigError (ConfigError.FieldParseError s f m))) := by
  constructor
  · intro name items fuel idx s f h
    rw [config.chainFromGo, h]
  · intro name items fuel idx s f m h
    rw [config.chainFromGo, h]

/-- C3 witness: the amended theorem applied to an index-1 descriptor whose
`p1sigwild` is absent (normal termination) and to one whose `p1sig` is malformed
(fatal error). -/
theorem c3_witness :
    config.chainFromGo "X" [("p1sig", "80")] 255 1 = Outcome.succeeds [] ∧
    config.chainFromGo "X" [("p1sig", "8")] 255 1 =
      Outcome.fails (Error.ConfigError (ConfigError.FieldParseError "X" "sig"
        "Invalid hex string length")) :=
  ⟨c3_amended.1 "X" [("p1sig", "80")] 254 1 "X" "sigwild" (by decide),
   c3_amended.2 "X" [("p1sig", "8")] 254 1 "X" "sig" "Invalid hex string length" (by decide)⟩

/-! ### C4: sig and sigwild length mismatch -/

/-- C4 (corrected). For `sig = "80"` with `sigwild = "00"` the descriptor builder
used by the config loader (`config::PatchInfo::from_items`) performs no length
check at all and succeeds — no `FieldParseError` is returned. -/
theorem c4_counterexample :
    config.PatchInfo.from_items "X"
      [("sig", "80"), ("sigwild", "00"), ("modfile", "m"), ("occur", "1")] none =
    Except.ok ⟨"m", none, [128], [false, false], none, none, 1, none, none⟩ := by
  decide

/-- C4 (amended). The alternative builder `patch_info::PatchInfo::from_items`
reaches `Signature::new`, whose length assertion fails on the mismatch: the call
panics instead of returning a `FieldParseError` to the caller. -/
theorem c4_thm :
    PatchInfo.from_items "X"
      [("sig", "80"), ("sigwild", "00"), ("modfile", "m"), ("occur", "1")] none =
      Outcome.panics ∧
    Signature.mkChecked [128] [MatchType.Exact, MatchType.Exact] = none := by
  decide

/-! ### C6: soft-fail optional numeric fields versus the required occur field -/

lemma from_items_ok_inv {sect : String} {items : Items} {idx : Option Nat}
    {p : config.PatchInfo} (h : config.PatchInfo.from_items sect items idx = Except.ok p) :
    p.xoffset = (fieldParseNum U64B sect items idx "xoffset").toOption ∧
    p.yoffset = (fieldParseNum U64B sect items idx "yoffset").toOption ∧
    p.setx = (fieldParseNum U16B sect items idx "setx").toOption ∧
    p.sety = (fieldParseNum U16B sect items idx "sety").toOption ∧
    ∃ n, fieldParseNum U32B sect items idx "occur" = Except.ok n := by
  unfold config.PatchInfo.from_items at h
  split at h
  · cases h
  · split at h
    · cases h
    · split at h
      · cases h
      · split at h
        · cases h
        · split at h
          · cases h
          · split at h
            · cases h
            · rename_i occur hoc
              cases h
              exact ⟨rfl, rfl, rfl, rfl, occur, hoc⟩

lemma fieldParseNum_error {bound : Nat} (sect : String) {items : Items} {idx : Option Nat}
    {name v : String} (h1 : lookupKV items (fieldKey idx name) = some v)
    (h2 : (parseUInt bound v.data).isOk = false) :
    ∃ msg, fieldParseNum bound sect items idx name =
      Except.error (Error.config_field_parse sect name msg) := by
  cases hp : parseUInt bound v.data with
  | ok n => rw [hp] at h2; cases h2
  | error msg =>
    refine ⟨msg, ?_⟩
    simp only [fieldParseNum, fieldGet, h1, hp]

/-- C6 (confirmed). A present but unparseable value for `xoffset`, `yoffset`,
`setx` or `sety` leaves that field `None` in any successfully built descriptor
(the parse failure is swallowed by `.ok()`), whereas an unparseable `occur`
makes the whole descriptor build return an error. -/
theorem c6_thm :
    (∀ (sect : String) (items : Items) (idx : Option Nat) (v : String)
        (p : config.PatchInfo),
        lookupKV items (fieldKey idx "xoffset") = some v →
        (parseUInt U64B v.data).isOk = false →
        config.PatchInfo.from_items sect items idx = Except.ok p → p.xoffset = none) ∧
    (∀ (sect : String) (items : Items) (idx : Option Nat) (v : String)
        (p : config.PatchInfo),
        lookupKV items (fieldKey idx "yoffset") = some v →
        (parseUInt U64B v.data).isOk = false →
        config.PatchInfo.from_items sect items idx = Except.ok p → p.yoffset = none) ∧
    (∀ (sect : String) (items : Items) (idx : Option Nat) (v : String)
        (p : config.PatchInfo),
        lookupKV items (fieldKey idx "setx") = some v →
        (parseUInt U16B v.data).isOk = false →
        config.PatchInfo.from_items sect items idx = Except.ok p → p.setx = none) ∧
    (∀ (sect : String) (items : Items) (idx : Option Nat) (v : String)
        (p : config.PatchInfo),
        lookupKV items (fieldKey idx "sety") = some v →
        (parseUInt U16B v.data).isOk = false →
        config.PatchInfo.from_items sect items idx = Except.ok p → p.sety = none) ∧
    (∀ (sect : String) (items : Items) (idx : Option Nat) (v : String),
        lookupKV items (fieldKey idx "occur") = some v →
        (parseUInt U32B v.data).isOk = false →
        ∃ e, config.PatchInfo.from_items sect items idx = Except.error e) := by
  refine ⟨?_, ?_, ?_, ?_, ?_⟩
  · intro sect items idx v p h1 h2 h3
    obtain ⟨msg, hmsg⟩ := fieldParseNum_error sect h1 h2
    rw [(from_items_ok_inv h3).1, hmsg]
    rfl
  · intro sect items idx v p h1 h2 h3
    obtain ⟨msg, hmsg⟩ := fieldParseNum_error sect h1 h2
    rw [(from_items_ok_inv h3).2.1, hmsg]
    rfl
  · intro sect items idx v p h1 h2 h3
    obtain ⟨msg, hmsg⟩ := fieldParseNum_error sect h1 h2
    rw [(from_items_ok_inv h3).2.2.1, hmsg]
    rfl
  · intro sect items idx v p h1 h2 h3
    obtain ⟨msg, hmsg⟩ := fieldParseNum_error sect h1 h2
    rw [(from_items_ok_inv h3).2.2.2.1, hmsg]
    rfl
  · intro sect items idx v h1 h2
    cases hall : config.PatchInfo.from_items sect items idx with
    | error e => exact ⟨e, rfl⟩
    | ok p =>
      obtain ⟨n, hn⟩ := (from_items_ok_inv hall).2.2.2.2
      obtain ⟨msg, hmsg⟩ := fieldParseNum_error sect h1 h2
      rw [hn] at hmsg
      cases hmsg

/-- C6 witness: a descriptor whose optional numeric fields are all present but
malformed builds with all four set to `None`, and the same descriptor with a
malformed `occur` fails. -/
theorem c6_witness :
    (⟨"m", none, [128], [false], none, none, 1, none, none⟩ : config.PatchInfo).xoffset = none ∧
    (⟨"m", none, [128], [false], none, none, 1, none, none⟩ : config.PatchInfo).yoffset = none ∧
    (⟨"m", none, [128], [false], none, none, 1, none, none⟩ : config.PatchInfo).setx = none ∧
    (⟨"m", none, [128], [false], none, none, 1, none, none⟩ : config.PatchInfo).sety = none ∧
    ∃ e, config.PatchInfo.from_items "X"
      [("sig", "80"), ("sigwild", "0"), ("modfile", "m"), ("occur", "zz")] none =
      Except.error e := by
  refine ⟨?_, ?_, ?_, ?_, ?_⟩
  · exact c6_thm.1 "X"
      [("sig", "80"), ("sigwild", "0"), ("modfile", "m"), ("occur", "1"),
       ("xoffset", "zz"), ("yoffset", "3x"), ("setx", ""), ("sety", "+")] none "zz" _
      (by decide) (by decide) (by decide)
  · exact c6_thm.2.1 "X"
      [("sig", "80"), ("sigwild", "0"), ("modfile", "m"), ("occur", "1"),
       ("xoffset", "zz"), ("yoffset", "3x"), ("setx", ""), ("sety", "+")] none "3x" _
      (by decide) (by decide) (by decide)
  · exact c6_thm.2.2.1 "X"
      [("sig", "80"), ("sigwild", "0"), ("modfile", "m"), ("occur", "1"),
       ("xoffset", "zz"), ("yoffset", "3x"), ("setx", ""), ("sety", "+")] none "" _
      (by decide) (by decide) (by decide)
  · exact c6_thm.2.2.2.1 "X"
      [("sig", "80"), ("sigwild", "0"), ("modfile", "m"), ("occur", "1"),
       ("xoffset", "zz"), ("yoffset", "3x"), ("setx", ""), ("sety", "+")] none "+" _
      (by decide) (by decide) (by decide)
  · exact c6_thm.2.2.2.2 "X"
      [("sig", "80"), ("sigwild", "0"), ("modfile", "m"), ("occur", "zz")] none "zz"
      (by decide) (by decide)

/-! ### C7: which Apps keys are collected and how they are ordered -/

instance : IsTotal (Nat × String) (fun a b => a.1 ≤ b.1) :=
  ⟨fun a b => Nat.le_total a.1 b.1⟩

instance : IsTrans (Nat × String) (fun a b => a.1 ≤ b.1) :=
  ⟨fun _ _ _ hab hbc => Nat.le_trans hab hbc⟩

/-- C7 (corrected). The key `a256` matches the claimed shape (`a` followed by a
base-10 unsigned integer) but is ignored by `get_apps`, because the suffix is
parsed as a `u8` and 256 overflows; the resulting application list is `["X"]`
instead of the claimed `["X", "Y"]`. -/
theorem c7_counterexample :
    config.get_apps [("Apps", [("version", "1.0"), ("a0", "X"), ("a256", "Y")])] =
      Except.ok ⟨"1.0", ["X"]⟩ ∧
    (["X"] : List String) ≠ ["X", "Y"] := by
  decide

/-- C7 (amended). In the Apps section the collected keys are exactly those whose
tail after the leading `a` parses as a `u8` (base 10, optional leading `+`,
value at most 255); the collected entries are sorted by that numeric suffix
ascending (stably) and projected to their values. -/
theorem c7_amended :
    ∀ (raw : config.RawConfig) (sec : Items) (ver : String),
      lookupKV raw "Apps" = some sec →
      lookupKV sec "version" = some ver →
      ∃ entries : List (Nat × String),
        config.get_apps raw = Except.ok ⟨ver, entries.map Prod.snd⟩ ∧
        entries.Perm (config.collectApps sec) ∧
        entries.Pairwise (fun a b => a.1 ≤ b.1) := by
  intro raw sec ver h1 h2
  refine ⟨List.insertionSort (fun a b => a.1 ≤ b.1) (config.collectApps sec), ?_, ?_, ?_⟩
  · simp only [config.get_apps, h1, h2]
  · exact List.perm_insertionSort _ _
  · exact List.sorted_insertionSort _ _

/-- C7 witness: the amended theorem applied to a concrete Apps section whose
indices appear out of order. -/
theorem c7_witness :
    ∃ entries : List (Nat × String),
      config.get_apps [("Apps", [("version", "2"), ("a1", "B"), ("a0", "A")])] =
        Except.ok ⟨"2", entries.map Prod.snd⟩ ∧
      entries.Perm (config.collectApps [("version", "2"), ("a1", "B"), ("a0", "A")]) ∧
      entries.Pairwise (fun a b => a.1 ≤ b.1) :=
  c7_amended [("Apps", [("version", "2"), ("a1", "B"), ("a0", "A")])]
    [("version", "2"), ("a1", "B"), ("a0", "A")] "2" (by decide) (by decide)

/-! ### C10: duplicate keys resolve to the last occurrence -/

lemma lookupKV_cons {α : Type} (x : String × α) (t : List (String × α)) (q : String) :
    lookupKV (x :: t) q = if x.1 == q then some x.2 else lookupKV t q := by
  cases h : x.1 == q with
  | true => simp [lookupKV, List.find?, h]
  | false => simp [lookupKV, List.find?, h]

lemma lookupKV_map_replace {α : Type} (k : String) (v : α) :
    ∀ (m : List (String × α)) (q : String),
      lookupKV (m.map (fun p => if p.1 == k then (k, v) else p)) q =
        if q = k then (if m.any (fun p => p.1 == k) then some v else none)
        else lookupKV m q := by
  intro m
  induction m with
  | nil =>
    intro q
    simp [lookupKV]
  | cons x t ih =>
    intro q
    simp only [List.map_cons, List.any_cons]
    by_cases hx : x.1 == k
    · rw [if_pos hx, lookupKV_cons (k, v) _ q, ih q]
      by_cases hq : q = k
      · subst hq
        simp [hx]
      · have hkq : (k == q) = false := by
          simp only [beq_eq_false_iff_ne, ne_eq]
          exact fun h => hq h.symm
        have hx1 : x.1 = k := by simpa using hx
        have hxq : (x.1 == q) = false := by
          simp only [beq_eq_false_iff_ne, ne_eq, hx1]
          exact fun h => hq h.symm
        simp [hq, hkq, lookupKV_cons x t q, hxq]
    · rw [if_neg hx, lookupKV_cons x _ q, ih q]
      by_cases hq : q = k
      · subst hq
        have hxq : (x.1 == q) = false := by
          simpa using hx
        simp only [hxq, Bool.false_or, if_neg (by simp : ¬((false : Bool) = true))]
        simp
      · simp [hq, lookupKV_cons x t q]

lemma lookupKV_insertKV {α : Type} (m : List (String × α)) (k q : String) (v : α) :
    lookupKV (insertKV m k v) q = if q = k then some v else lookupKV m q := by
  unfold insertKV
  by_cases hany : m.any (fun p => p.1 == k)
  · rw [if_pos hany, lookupKV_map_replace, hany]
    simp
  · rw [if_neg hany]
    by_cases hq : q = k
    · subst hq
      have hnone : m.find? (fun p => p.1 == q) = none := by
        rw [List.find?_eq_none]
        intro x hx hpx
        exact hany (List.any_eq_true.mpr ⟨x, hx, hpx⟩)
      simp [lookupKV, List.find?_append, hnone, List.find?]
    · have hlast : List.find? (fun p => p.1 == q) [(k, v)] = none := by
        have : (k == q) = false := by
          simp only [beq_eq_false_iff_ne, ne_eq]
          exact fun h => hq h.symm
        simp [List.find?, this]
      simp [lookupKV, List.find?_append, hlast, hq]

lemma foldl_insertKV_lookup :
    ∀ (pairs : List (String × String)) (m : List (String × String)) (q : String),
      lookupKV (pairs.foldl (fun acc kv => insertKV acc kv.1 kv.2) m) q =
        match pairs.reverse.find? (fun kv => kv.1 == q) with
        | some kv => some kv.2
        | none => lookupKV m q := by
  intro pairs
  induction pairs with
  | nil =>
    intro m q
    simp
  | cons a t ih =>
    intro m q
    simp only [List.foldl_cons, List.reverse_cons, List.find?_append]
    rw [ih (insertKV m a.1 a.2) q, lookupKV_insertKV]
    cases hft : t.reverse.find? (fun kv => kv.1 == q) with
    | some kv => simp [Option.or]
    | none =>
      by_cases hq : q = a.1
      · subst hq
        simp [Option.or, List.find?]
      · have haq : (a.1 == q) = false := by
          simp only [beq_eq_false_iff_ne, ne_eq]
          exact fun h => hq h.symm
        simp [Option.or, List.find?, haq, hq]

/-- C10 (confirmed). A section map built by the parser binds every key to the
value of its last occurrence (the first occurrence in the reversed pair list),
and duplicate keys are not rejected: the concrete document with `k` given twice
parses successfully and `k` resolves to the second value. -/
theorem c10_thm :
    (∀ (pairs : List (String × String)) (q : String),
        lookupKV (config.buildItems pairs) q =
          (pairs.reverse.find? (fun kv => kv.1 == q)).map Prod.snd) ∧
    (config.parse ("[S]\nk = 1\nk = 2\n".data)).bind
      (fun raw => (lookupKV raw "S").bind (fun items => lookupKV items "k")) = some "2" := by
  constructor
  · intro pairs q
    unfold config.buildItems
    rw [foldl_insertKV_lookup]
    cases pairs.reverse.find? (fun kv => kv.1 == q) with
    | some kv => rfl
    | none => rfl
  · decide

/-! ### C8 and C9: how kv_pair treats quoted values and trailing comments -/

lemma takeWhile_append_eq {p : Char → Bool} :
    ∀ (k rest : List Char), (∀ c ∈ k, p c = true) →
      (∀ c, rest.head? = some c → p c = false) →
      (k ++ rest).takeWhile p = k ∧ (k ++ rest).dropWhile p = rest := by
  intro k
  induction k with
  | nil =>
    intro rest _ h2
    cases rest with
    | nil => simp
    | cons c r =>
      have := h2 c rfl
      simp [List.takeWhile_cons, List.dropWhile_cons, this]
  | cons a k' ih =>
    intro rest h1 h2
    have ha : p a = true := h1 a (List.mem_cons_self a k')
    have hrec := ih rest (fun c hc => h1 c (List.mem_cons_of_mem a hc)) h2
    simp [List.takeWhile_cons, List.dropWhile_cons, ha, hrec.1, hrec.2]

lemma alphanumeric1_eq (k rest : List Char) (hk : k ≠ [])
    (h1 : ∀ c ∈ k, c.isAlphanum = true)
    (h2 : ∀ c, rest.head? = some c → c.isAlphanum = false) :
    config.alphanumeric1 (k ++ rest) = some (k, rest) := by
  obtain ⟨ht, hd⟩ := takeWhile_append_eq k rest h1 h2
  unfold config.alphanumeric1
  rw [ht, hd]
  cases k with
  | nil => exact absurd rfl hk
  | cons a k' => rfl

lemma space0_eq (l : List Char)
    (h : ∀ c, l.head? = some c → (c == ' ' || c == '\t') = false) :
    config.space0 l = l := by
  cases l with
  | nil => rfl
  | cons c r =>
    have := h c rfl
    simp [config.space0, List.dropWhile_cons, this]

lemma splitUntil_eq (c : Char) :
    ∀ (pre post : List Char), c ∉ pre →
      config.splitUntil c (pre ++ c :: post) = some (pre, c :: post) := by
  intro pre
  induction pre with
  | nil =>
    intro post _
    simp [config.splitUntil]
  | cons x t ih =>
    intro post hmem
    have hx : ¬x = c := by
      intro h
      exact hmem (h ▸ List.mem_cons_self x t)
    have := ih post (fun h => hmem (List.mem_cons_of_mem x h))
    simp [config.splitUntil, hx, this]

lemma tillLineEnding_eq :
    ∀ (v rest : List Char), (∀ ch ∈ v, ch ≠ '\n' ∧ ch ≠ '\r') →
      config.tillLineEnding (v ++ '\n' :: rest) = some (v, '\n' :: rest) := by
  intro v
  induction v with
  | nil =>
    intro rest _
    simp [config.tillLineEnding]
  | cons ch v' ih =>
    intro rest hv
    have hch := hv ch (List.mem_cons_self ch v')
    have := ih rest (fun c hc => hv c (List.mem_cons_of_mem ch hc))
    simp [config.tillLineEnding, hch.1, hch.2, this]

/-- C8 (corrected). With trailing content `x` between the closing quote and the
line end, the quoted branch of `kv_pair` does not apply (it requires a line
ending directly after the closing quote): the line falls back to the unquoted
branch and the stored value is the whole right-trimmed tail including both
quotes — the trailing content is not discarded and the value is not the text
between the quotes. -/
theorem c8_counterexample :
    config.kv_pair ("a = \"v\" x\n".data) =
      some (("a", "\"v\" x"), "\n".data) ∧
    ("\"v\" x" : String) ≠ "v" := by
  decide

/-- C8 (amended). A double-quoted value is parsed as exactly the text between
the quotes precisely when the closing quote is immediately followed by a line
ending; in that case the line ending is consumed and nothing can follow the
quote on the line. -/
theorem c8_amended (k inner rest : List Char) (hk : k ≠ [])
    (h1 : ∀ c ∈ k, c.isAlphanum = true) (h2 : '"' ∉ inner) :
    config.kv_pair (k ++ '=' :: '"' :: (inner ++ '"' :: '\n' :: rest)) =
      some ((String.mk k, String.mk inner), rest) := by
  have ha := alphanumeric1_eq k ('=' :: '"' :: (inner ++ '"' :: '\n' :: rest)) hk h1
    (by
      intro c hc
      injection hc with h
      subst h
      decide)
  have hs1 : config.space0 ('=' :: '"' :: (inner ++ '"' :: '\n' :: rest)) =
      '=' :: '"' :: (inner ++ '"' :: '\n' :: rest) := by
    apply space0_eq
    intro c hc
    injection hc with h
    subst h
    decide
  have hs2 : config.space0 ('"' :: (inner ++ '"' :: '\n' :: rest)) =
      '"' :: (inner ++ '"' :: '\n' :: rest) := by
    apply space0_eq
    intro c hc
    injection hc with h
    subst h
    decide
  have hsp := splitUntil_eq '"' inner ('\n' :: rest) h2
  simp only [config.kv_pair, ha, hs1, config.pChar]
  simp only [reduceIte]
  rw [hs2]
  simp only [reduceIte, config.quotedValue, config.pChar, config.takeUntil, hsp,
    config.lineEnding]
  simp [Nat.zero_le]

/-- C8 witness: the amended theorem applied at a concrete quoted line. -/
theorem c8_witness :
    config.kv_pair (['k', 'e', 'y'] ++ '=' :: '"' :: (['h', 'i'] ++ '"' :: '\n' :: ['z'])) =
      some ((String.mk ['k', 'e', 'y'], String.mk ['h', 'i']), ['z']) :=
  c8_amended ['k', 'e', 'y'] ['h', 'i'] ['z'] (by decide) (by decide) (by decide)

/-- C9 (corrected). An end-of-line comment after an unquoted value is not
stripped: the parsed value for `a= 800 ; c` is the full right-trimmed tail
`800 ; c`, comment marker and comment text included, not `800`. -/
theorem c9_counterexample :
    config.kv_pair ("a= 800 ; c\n".data) = some (("a", "800 ; c"), "\n".data) ∧
    ("800 ; c" : String) ≠ "800" := by
  decide

/-- C9 (amended). For an unquoted value the stored value is the entire rest of
the line right-trimmed of whitespace — it extends up to the line end and is not
cut at a `;` or `#` comment marker, so end-of-line comment text stays inside the
value. -/
theorem c9_amended (k v rest : List Char) (hk : k ≠ [])
    (h1 : ∀ c ∈ k, c.isAlphanum = true)
    (hv : ∀ c ∈ v, c ≠ '\n' ∧ c ≠ '\r')
    (hv2 : ∀ c, v.head? = some c → c ≠ '"' ∧ c ≠ ' ' ∧ c ≠ '\t') :
    config.kv_pair (k ++ '=' :: (v ++ '\n' :: rest)) =
      some ((String.mk k, String.mk (config.trimEnd v)), '\n' :: rest) := by
  have ha := alphanumeric1_eq k ('=' :: (v ++ '\n' :: rest)) hk h1
    (by
      intro c hc
      injection hc with h
      subst h
      decide)
  have hs1 : config.space0 ('=' :: (v ++ '\n' :: rest)) = '=' :: (v ++ '\n' :: rest) := by
    apply space0_eq
    intro c hc
    injection hc with h
    subst h
    decide
  have hs2 : config.space0 (v ++ '\n' :: rest) = v ++ '\n' :: rest := by
    apply space0_eq
    intro c hc
    cases v with
    | nil =>
      injection hc with h
      subst h
      decide
    | cons a t =>
      injection hc with h
      subst h
      have h3 := hv2 a rfl
      simp only [Bool.or_eq_false_iff, beq_eq_false_iff_ne, ne_eq]
      exact ⟨h3.2.1, h3.2.2⟩
  have hq : config.quotedValue (v ++ '\n' :: rest) = none := by
    cases v with
    | nil => simp [config.quotedValue, config.pChar]
    | cons a t =>
      have h3 := hv2 a rfl
      simp [config.quotedValue, config.pChar, h3.1]
  have htl := tillLineEnding_eq v rest hv
  simp only [config.kv_pair, ha, hs1, config.pChar]
  simp only [reduceIte]
  rw [hs2]
  simp only [hq, htl]

/-- C9 witness: the amended theorem applied at a concrete line with an
end-of-line comment; the stored value keeps the comment text. -/
theorem c9_witness :
    config.kv_pair (['a'] ++ '=' :: (['8', '0', '0', ' ', ';', ' ', 'c'] ++ '\n' :: [])) =
      some ((String.mk ['a'],
        String.mk (config.trimEnd ['8', '0', '0', ' ', ';', ' ', 'c'])), '\n' :: []) :=
  c9_amended ['a'] ['8', '0', '0', ' ', ';', ' ', 'c'] [] (by decide) (by decide)
    (by decide) (by decide)

/-! ### C5: leftmost-match characterization of try_find -/

/-- Modelled from the claim's wording: offset `m` is a valid match position when
the pattern fits (`haystack.len() - m >= pattern.len()`, read arithmetically as
`m + pattern.len() <= haystack.len()`) and every non-wildcard slot's exact byte
equals the haystack byte at `m` plus the slot index. -/
def validAt (s : Signature) (h : List Nat) (m : Nat) : Prop :=
  m + s.pattern.length ≤ h.length ∧
  ∀ j, j < s.pattern.length → slotOk (s.pattern.getD j none) (h.getD (m + j) 0) = true

instance validAtDecidable (s : Signature) (h : List Nat) (m : Nat) :
    Decidable (validAt s h m) := by
  unfold validAt
  exact inferInstance

lemma searchAt_eq_some {s : Signature} {h : List Nat} {i j : Nat} (hi : i ≤ h.length) :
    s.searchAt h i = some j ↔ (j = i ∧ validAt s h i) := by
  unfold Signature.searchAt validAt
  rw [List.length_drop]
  by_cases hg : s.pattern.length > h.length - i
  · rw [if_pos hg]
    constructor
    · intro hcon
      cases hcon
    · rintro ⟨rfl, hlen, _⟩
      exfalso
      omega
  · rw [if_neg hg]
    have hlen : i + s.pattern.length ≤ h.length := by omega
    by_cases hall : (List.range s.pattern.length).all
        (fun q => slotOk (s.pattern.getD q none) (h.getD (q + i) 0)) = true
    · rw [if_pos hall]
      constructor
      · intro hsome
        injection hsome with hj
        subst hj
        refine ⟨rfl, hlen, ?_⟩
        intro q hq
        have := List.all_eq_true.mp hall q (List.mem_range.mpr hq)
        simpa [Nat.add_comm] using this
      · rintro ⟨rfl, _⟩
        rfl
    · rw [if_neg hall]
      constructor
      · intro hcon
        cases hcon
      · rintro ⟨rfl, _, hslots⟩
        exfalso
        apply hall
        rw [List.all_eq_true]
        intro q hq
        have := hslots q (List.mem_range.mp hq)
        simpa [Nat.add_comm] using this

lemma tryFindGo_char (s : Signature) (h : List Nat) (hp : s.pattern ≠ []) :
    ∀ (fuel i : Nat), i + fuel = h.length →
      ((∀ m, s.tryFindGo h fuel i = some m ↔
          (i ≤ m ∧ validAt s h m ∧ ∀ k, i ≤ k → k < m → ¬ validAt s h k)) ∧
       (s.tryFindGo h fuel i = none ↔ ∀ k, i ≤ k → ¬ validAt s h k)) := by
  intro fuel
  induction fuel with
  | zero =>
    intro i hif
    have hpl : 0 < s.pattern.length := List.length_pos.mpr hp
    constructor
    · intro m
      simp only [Signature.tryFindGo]
      constructor
      · intro hcon
        cases hcon
      · rintro ⟨him, hvm, _⟩
        exfalso
        have := hvm.1
        omega
    · simp only [Signature.tryFindGo]
      constructor
      · intro _ k hk hvk
        have := hvk.1
        omega
      · intro _
        trivial
  | succ fuel ih =>
    intro i hif
    have hi : i < h.length := by omega
    have hpl : 0 < s.pattern.length := List.length_pos.mpr hp
    by_cases hg : h.length - i < s.pattern.length
    · constructor
      · intro m
        simp only [Signature.tryFindGo, if_pos hg]
        constructor
        · intro hcon
          cases hcon
        · rintro ⟨him, hvm, _⟩
          exfalso
          have := hvm.1
          omega
      · simp only [Signature.tryFindGo, if_pos hg]
        constructor
        · intro _ k hk hvk
          have := hvk.1
          omega
        · intro _
          trivial
    · cases hsa : s.searchAt h i with
      | some idx =>
        obtain ⟨rfl, hvi⟩ := (searchAt_eq_some (Nat.le_of_lt hi)).mp hsa
        constructor
        · intro m
          simp only [Signature.tryFindGo, if_neg hg, hsa]
          constructor
          · intro hm
            injection hm with hm
            subst hm
            exact ⟨Nat.le_refl _, hvi, fun k hk1 hk2 => absurd hk1 (by omega)⟩
          · rintro ⟨him, hvm, hmin⟩
            by_cases hmi : m = idx
            · rw [hmi]
            · exact absurd hvi (hmin idx (Nat.le_refl _) (by omega))
        · simp only [Signature.tryFindGo, if_neg hg, hsa]
          constructor
          · intro hcon
            cases hcon
          · intro hall
            exact absurd hvi (hall idx (Nat.le_refl _))
      | none =>
        have hnvi : ¬ validAt s h i := by
          intro hv
          have hs2 : s.searchAt h i = some i :=
            (searchAt_eq_some (Nat.le_of_lt hi)).mpr ⟨rfl, hv⟩
          rw [hsa] at hs2
          cases hs2
        have hih := ih (i + 1) (by omega)
        constructor
        · intro m
          simp only [Signature.tryFindGo, if_neg hg, hsa]
          rw [hih.1 m]
          constructor
          · rintro ⟨h1, h2, h3⟩
            refine ⟨by omega, h2, ?_⟩
            intro k hk1 hk2
            by_cases hky : k = i
            · rw [hky]
              exact hnvi
            · exact h3 k (by omega) hk2
          · rintro ⟨h1, h2, h3⟩
            have hmi : m ≠ i := fun he => hnvi (he ▸ h2)
            exact ⟨by omega, h2, fun k hk1 hk2 => h3 k (by omega) hk2⟩
        · simp only [Signature.tryFindGo, if_neg hg, hsa]
          rw [hih.2]
          constructor
          · intro hall k hk
            by_cases hky : k = i
            · rw [hky]
              exact hnvi
            · exact hall k (by omega)
          · intro hall k hk
            exact hall k (by omega)

/-- C5 (corrected). In the degenerate case of an empty pattern on an empty
haystack, offset 0 satisfies the claim's matching condition (the remaining
haystack is not shorter than the pattern and the slot condition is vacuous), yet
`try_find` returns `None` because its scan loop runs zero iterations. -/
theorem c5_counterexample :
    validAt ⟨[]⟩ [] 0 ∧ Signature.tryFind ⟨[]⟩ [] = none := by
  constructor
  · constructor
    · decide
    · intro j hj
      simp at hj
  · decide

/-- C5 (amended). Except on an empty haystack with an empty pattern, `try_find`
returns `some m` exactly when `m` is the least offset at which the pattern fits
and every non-wildcard slot agrees with the haystack byte at `m` plus the slot
index, and returns `None` exactly when no such offset exists. -/
theorem c5_amended (s : Signature) (h : List Nat) (hne : h ≠ [] ∨ s.pattern ≠ []) :
    (∀ m, s.tryFind h = some m ↔ (validAt s h m ∧ ∀ k, k < m → ¬ validAt s h k)) ∧
    (s.tryFind h = none ↔ ∀ m, ¬ validAt s h m) := by
  by_cases hp : s.pattern = []
  · have hhne : h ≠ [] := by
      cases hne with
      | inl h1 => exact h1
      | inr h2 => exact absurd hp h2
    have hfind : s.tryFind h = some 0 := by
      cases h with
      | nil => exact absurd rfl hhne
      | cons a t =>
        unfold Signature.tryFind
        simp only [List.length_cons, Signature.tryFindGo, Signature.searchAt, hp]
        simp
    have hv0 : validAt s h 0 := by
      constructor
      · simp [hp]
      · intro j hj
        rw [hp] at hj
        simp at hj
    constructor
    · intro m
      rw [hfind]
      constructor
      · intro hm
        injection hm with hm
        subst hm
        exact ⟨hv0, fun k hk => absurd hk (Nat.not_lt_zero k)⟩
      · rintro ⟨hvm, hmin⟩
        by_cases hm0 : m = 0
        · rw [hm0]
        · exact absurd hv0 (hmin 0 (by omega))
    · rw [hfind]
      constructor
      · intro hcon
        cases hcon
      · intro hall
        exact absurd hv0 (hall 0)
  · have hc := tryFindGo_char s h hp h.length 0 (by omega)
    unfold Signature.tryFind
    constructor
    · intro m
      rw [hc.1 m]
      constructor
      · rintro ⟨_, hv, hmin⟩
        exact ⟨hv, fun k hk => hmin k (Nat.zero_le k) hk⟩
      · rintro ⟨hv, hmin⟩
        exact ⟨Nat.zero_le m, hv, fun k _ hk => hmin k hk⟩
    · rw [hc.2]
      constructor
      · intro hall m
        exact hall m (Nat.zero_le m)
      · intro hall k _
        exact hall k

/-- C5 witness: the amended theorem applied to a pattern with a wildcard slot
that matches a concrete haystack at offsets 1 and 3, where the search from 0
returns the leftmost offset 1. -/
theorem c5_witness :
    (∀ m, Signature.tryFind ⟨[some 128, none]⟩ [0, 128, 5, 128, 9] = some m ↔
        (validAt ⟨[some 128, none]⟩ [0, 128, 5, 128, 9] m ∧
         ∀ k, k < m → ¬ validAt ⟨[some 128, none]⟩ [0, 128, 5, 128, 9] k)) ∧
    (Signature.tryFind ⟨[some 128, none]⟩ [0, 128, 5, 128, 9] = none ↔
      ∀ m, ¬ validAt ⟨[some 128, none]⟩ [0, 128, 5, 128, 9] m) :=
  c5_amended ⟨[some 128, none]⟩ [0, 128, 5, 128, 9] (Or.inl (by decide))
